import Mathlib

/-!
Shallow embedding of the committee-scheduler repository's synchronization
core: the Google-Sheets upsert reconciler and audit logger
(`src/features/sheets/editor.ts`), the pure parsing logic of the METI and
OCCTO scrapers (`src/features/scrape/meti/scraper.ts`,
`src/features/scrape/occto/scraper.ts`), and the two-source orchestrator
(`src/index.ts`).  Remote effects (HTTP fetches, Sheets API calls) are
modelled by passing their outcomes in explicitly as `Except` / `Option`
values; the pure string and array manipulation follows the TypeScript
source line by line.
-/

/-- The `MeetingData` interface from `src/definitions/types.ts`:
`{ name, date, time, agenda, detailUrl }`, with `detailUrl` the unique key. -/
structure MeetingData where
  name : String
  date : String
  time : String
  agenda : String
  detailUrl : String
deriving DecidableEq

/-- A sheet row: an ordered list of cell strings. -/
abbrev Row := List String

/-- Reading the 5th cell (`row[4]`, the 詳細URL column) of a row.  An
out-of-range read yields `undefined` in TypeScript, which is falsy exactly
like the empty string in the `if (url)` guard, so both collapse to `""`. -/
def urlCell (row : Row) : String := row.getD 4 ""

/-- A JavaScript `Map<string, number>` modelled as an association list;
`mapSet` is `Map.set`: it overwrites the binding of an existing key and
appends a binding for a fresh key. -/
def mapSet : List (String × Nat) → String → Nat → List (String × Nat)
  | [], k, v => [(k, v)]
  | (k', v') :: rest, k, v =>
      if k' = k then (k, v) :: rest else (k', v') :: mapSet rest k v

/-- `Map.get`: the value bound to `k`, if any. -/
def mapGet : List (String × Nat) → String → Option Nat
  | [], _ => none
  | (k', v) :: rest, k => if k' = k then some v else mapGet rest k

/-- The `existingData.forEach((row, index) => ...)` loop of
`upsertMeetings` (`editor.ts` lines 114-120): starting at `index = idx`,
bind each row's 5th-cell URL (when truthy) to its 1-based sheet row number
`index + 2` (`+2` adjusts for the header row and 0-based indexing). -/
def buildUrlMapFrom (idx : Nat) : List Row → List (String × Nat) → List (String × Nat)
  | [], acc => acc
  | row :: rest, acc =>
      let url := urlCell row
      buildUrlMapFrom (idx + 1) rest (if url ≠ "" then mapSet acc url (idx + 2) else acc)

/-- The `urlToRowIndex` map of `upsertMeetings`, built from the whole
existing data region (rows from sheet row 2 onward). -/
def urlToRowIndex (existingData : List Row) : List (String × Nat) :=
  buildUrlMapFrom 0 existingData []

/-- The `rowData` array built for each meeting inside `upsertMeetings`
(`editor.ts` lines 127-133): the five ordered cells. -/
def rowOf (m : MeetingData) : Row :=
  [m.name, m.date, m.time, m.agenda, m.detailUrl]

/-- The value returned by `upsertMeetings`, extended with the final state
of the sheet's data region so that the write effects are observable. -/
structure UpsertResult where
  table : List Row
  updated : Nat
  inserted : Nat
deriving DecidableEq

/-- The `for (const meeting of meetings)` write loop of `upsertMeetings`
(`editor.ts` lines 126-162).  `urlMap` is the `urlToRowIndex` map, fixed
before the loop and never extended by it.  A hit issues a full-row
overwrite of sheet row `existingRowIndex` (list position
`existingRowIndex - 2`); a miss appends `rowData` at the table's current
end. -/
def upsertLoop (urlMap : List (String × Nat)) :
    List MeetingData → List Row → Nat → Nat → UpsertResult
  | [], table, updated, inserted => ⟨table, updated, inserted⟩
  | meeting :: rest, table, updated, inserted =>
      match mapGet urlMap meeting.detailUrl with
      | some existingRowIndex =>
          upsertLoop urlMap rest (table.set (existingRowIndex - 2) (rowOf meeting))
            (updated + 1) inserted
      | none =>
          upsertLoop urlMap rest (table ++ [rowOf meeting]) updated (inserted + 1)

/-- `getExistingData` (`editor.ts` lines 27-42): the remote read of range
`A2:E` either fails (the `catch` logs and returns `[]`), or succeeds with
`response.data.values` possibly absent (`|| []`). -/
def getExistingData : Except String (Option (List Row)) → List Row
  | .ok values => values.getD []
  | .error _ => []

/-- `upsertMeetings` (`editor.ts` lines 98-165), with the remote read of
the existing data region passed in as `readResult` (the sheet name only
addresses the remote store and is elided). -/
def upsertMeetings (meetings : List MeetingData)
    (readResult : Except String (Option (List Row))) : UpsertResult :=
  let existingData := getExistingData readResult
  upsertLoop (urlToRowIndex existingData) meetings existingData 0 0

/-- Matching exactly `n` digits (`\d{n}`), returning the captured digits
and the remaining input.  JavaScript `\d` is the ASCII digits, matching
`Char.isDigit`. -/
def takeDigits : Nat → List Char → Option (List Char × List Char)
  | 0, cs => some ([], cs)
  | _ + 1, [] => none
  | n + 1, c :: cs =>
      if c.isDigit then
        match takeDigits n cs with
        | some (ds, rest) => some (c :: ds, rest)
        | none => none
      else none

/-- Matching one literal character. -/
def lit (c : Char) : List Char → Option (List Char)
  | [] => none
  | c' :: cs => if c' = c then some cs else none

/-- Matching the character class `[～~]` used by both time patterns. -/
def litTilde : List Char → Option (List Char)
  | [] => none
  | c :: cs => if c = '～' ∨ c = '~' then some cs else none

/-- Matching `\d{n}` immediately followed by a literal. -/
def digitsThenLit (n : Nat) (sep : Char) (cs : List Char) :
    Option (List Char × List Char) :=
  match takeDigits n cs with
  | some (ds, rest) =>
      match lit sep rest with
      | some rest' => some (ds, rest')
      | none => none
  | none => none

/-- Matching the greedy `(\d{1,2})` followed by a literal separator: try
two digits first, then backtrack to one.  Because the separator is never a
digit, this is exactly the backtracking behaviour of the JavaScript
regexes used in the scrapers. -/
def digits12Lit (sep : Char) (cs : List Char) :
    Option (List Char × List Char) :=
  match digitsThenLit 2 sep cs with
  | some r => some r
  | none => digitsThenLit 1 sep cs

/-- The date pattern `/(\d{4})年(\d{1,2})月(\d{1,2})日/` anchored at the
current position, returning the three captures. -/
def dateAt (cs : List Char) : Option (String × String × String) :=
  match takeDigits 4 cs with
  | none => none
  | some (y, cs1) =>
      match lit '年' cs1 with
      | none => none
      | some cs2 =>
          match digits12Lit '月' cs2 with
          | none => none
          | some (mo, cs3) =>
              match digits12Lit '日' cs3 with
              | none => none
              | some (d, _) => some (y.asString, mo.asString, d.asString)

/-- The time pattern `/(\d{1,2})時(\d{2})分[～~](\d{1,2})時(\d{2})分/`
anchored at the current position. -/
def time1At (cs : List Char) : Option (String × String × String × String) :=
  match digits12Lit '時' cs with
  | none => none
  | some (sh, cs1) =>
      match digitsThenLit 2 '分' cs1 with
      | none => none
      | some (sm, cs2) =>
          match litTilde cs2 with
          | none => none
          | some cs3 =>
              match digits12Lit '時' cs3 with
              | none => none
              | some (eh, cs4) =>
                  match digitsThenLit 2 '分' cs4 with
                  | none => none
                  | some (em, _) =>
                      some (sh.asString, sm.asString, eh.asString, em.asString)

/-- The time pattern `/(\d{1,2}):(\d{2})[～~](\d{1,2}):(\d{2})/` anchored
at the current position. -/
def time2At (cs : List Char) : Option (String × String × String × String) :=
  match digits12Lit ':' cs with
  | none => none
  | some (sh, cs1) =>
      match takeDigits 2 cs1 with
      | none => none
      | some (sm, cs2) =>
          match litTilde cs2 with
          | none => none
          | some cs3 =>
              match digits12Lit ':' cs3 with
              | none => none
              | some (eh, cs4) =>
                  match takeDigits 2 cs4 with
                  | none => none
                  | some (em, _) =>
                      some (sh.asString, sm.asString, eh.asString, em.asString)

/-- Unanchored matching as `String.prototype.match` performs it: try the
pattern at each position from the left and return the first success. -/
def findMatch {α : Type} (p : List Char → Option α) : List Char → Option α
  | [] => p []
  | c :: cs =>
      match p (c :: cs) with
      | some r => some r
      | none => findMatch p cs

/-- `dateTimeText.match(/(\d{4})年(\d{1,2})月(\d{1,2})日/)`. -/
def dateMatch (s : String) : Option (String × String × String) :=
  findMatch dateAt s.data

/-- `dateTimeText.match(/(\d{1,2})時(\d{2})分[～~](\d{1,2})時(\d{2})分/)`. -/
def timeMatch1 (s : String) : Option (String × String × String × String) :=
  findMatch time1At s.data

/-- `dateTimeText.match(/(\d{1,2}):(\d{2})[～~](\d{1,2}):(\d{2})/)`. -/
def timeMatch2 (s : String) : Option (String × String × String × String) :=
  findMatch time2At s.data

/-- `month.padStart(2, "0")`: left-pad with zeros up to length 2. -/
def padStart2 (s : String) : String :=
  String.mk (List.replicate (2 - s.length) '0') ++ s

/-- `parseDate` from the METI scraper
(`src/features/scrape/meti/scraper.ts` lines 13-27): convert
`"YYYY年M月D日..."` to `"YYYY-MM-DD"`; when the text does not match, warn
and return the original string unchanged. -/
def parseDate (dateStr : String) : String :=
  match dateMatch dateStr with
  | none => dateStr
  | some (year, month, day) =>
      if year = "" ∨ month = "" ∨ day = "" then dateStr
      else year ++ "-" ++ padStart2 month ++ "-" ++ padStart2 day

/-- The date/time extraction block of the OCCTO `parseDetailPage`
(`src/features/scrape/occto/scraper.ts` lines 115-146), as a function of
the trimmed `dateTimeText`: the date capture is normalised to
`YYYY-MM-DD` with zero-padded month and day; the time is rebuilt from the
hour-glyph pattern first, then the colon pattern, and otherwise the raw
text is kept verbatim.  When `dateTimeText` is empty (falsy), both fields
stay `""`. -/
def parseDateTimeText (dateTimeText : String) : String × String :=
  if dateTimeText = "" then ("", "")
  else
    let date :=
      match dateMatch dateTimeText with
      | some (year, month, day) =>
          if year ≠ "" ∧ month ≠ "" ∧ day ≠ "" then
            year ++ "-" ++ padStart2 month ++ "-" ++ padStart2 day
          else ""
      | none => ""
    let time :=
      match timeMatch1 dateTimeText with
      | some (sh, sm, eh, em) =>
          sh ++ "時" ++ sm ++ "分～" ++ eh ++ "時" ++ em ++ "分"
      | none =>
          match timeMatch2 dateTimeText with
          | some (sh, sm, eh, em) => sh ++ ":" ++ sm ++ "～" ++ eh ++ ":" ++ em
          | none => dateTimeText
    (date, time)

/-- The METI base URL constant (`src/features/scrape/meti/scraper.ts`). -/
def METI_BASE_URL : String :=
  "https://wwws.meti.go.jp/interface/honsho/committee/index.cgi"

/-- Character-list prefix test (the semantics of
`String.prototype.startsWith`), written recursively so that it evaluates
inside the kernel. -/
def charsStartWith : List Char → List Char → Bool
  | [], _ => true
  | _ :: _, [] => false
  | p :: ps, c :: cs => p = c && charsStartWith ps cs

/-- `s.startsWith(p)` on the underlying character lists. -/
def startsWithStr (s p : String) : Bool := charsStartWith p.data s.data

/-- The URL normalisation of the METI `parseListPage`: absolute URLs pass
through, root-relative paths get the host prepended, other relative paths
the base URL. -/
def buildMetiDetailUrl (href : String) : String :=
  if startsWithStr href "http" then href
  else if startsWithStr href "/" then "https://wwws.meti.go.jp" ++ href
  else METI_BASE_URL ++ "/" ++ href

/-- A list-page entry extracted by the METI `parseListPage`. -/
structure MetiListEntry where
  name : String
  date : String
  detailUrl : String
deriving DecidableEq

/-- One row of the METI list-page table, reduced to the three extracted
pieces: the trimmed date-cell text, the trimmed link text, and the link's
`href` attribute (absent when the row has no link).  The row contributes
an entry only when all three are truthy (`if (name && href && dateText)`),
and its date is `parseDate(dateText)`. -/
def parseListRow (name dateText : String) (href : Option String) :
    Option MetiListEntry :=
  match href with
  | none => none
  | some h =>
      if name ≠ "" ∧ h ≠ "" ∧ dateText ≠ "" then
        some ⟨name, parseDate dateText, buildMetiDetailUrl h⟩
      else none

/-- `parseListPage` of the METI scraper (lines 32-76), over the extracted
`(name, dateText, href)` triples of the table rows. -/
def parseListPage (rows : List (String × String × Option String)) :
    List MetiListEntry :=
  rows.filterMap fun r => parseListRow r.1 r.2.1 r.2.2

/-- The `{time, agenda}` result of the METI `parseDetailPage` (which on
any fetch/parse failure yields empty strings). -/
structure MetiDetail where
  time : String
  agenda : String

/-- `scrapeMeetings` of the METI scraper (lines 142-173): every list-page
entry is emitted, with its list-page name and date and the detail-page
time and agenda.  The detail-page fetch+parse is passed in as the oracle
`detailOf`. -/
def scrapeMeetingsMeti (rows : List (String × String × Option String))
    (detailOf : String → MetiDetail) : List MeetingData :=
  (parseListPage rows).map fun entry =>
    ⟨entry.name, entry.date, (detailOf entry.detailUrl).time,
      (detailOf entry.detailUrl).agenda, entry.detailUrl⟩

/-- The relevant content of a fetched OCCTO detail page: the first `h1`
text, the trimmed text of the paragraph after the 日時 heading, and the
agenda list items. -/
structure OcctoPage where
  h1 : String
  dateTimeText : String
  agendaItems : List String

/-- The `{name, date, time, agenda}` record returned by the OCCTO
`parseDetailPage`. -/
structure DetailResult where
  name : String
  date : String
  time : String
  agenda : String

/-- The agenda join (`agendaItems.join("\n")` when any items exist,
otherwise the empty default). -/
def agendaOf (items : List String) : String :=
  if items.length > 0 then String.intercalate "\n" items else ""

/-- `parseDetailPage` of the OCCTO scraper (lines 99-164): on fetch/parse
failure (`none`) the `catch` returns all-empty fields; otherwise the date
and time come from `parseDateTimeText` and the agenda from the list
items. -/
def parseDetailPage : Option OcctoPage → DetailResult
  | none => ⟨"", "", "", ""⟩
  | some page =>
      let dt := parseDateTimeText page.dateTimeText
      ⟨page.h1, dt.1, dt.2, agendaOf page.agendaItems⟩

/-- A `{name, detailUrl}` entry produced by the OCCTO `parseNewsJson`. -/
structure OcctoEntry where
  name : String
  detailUrl : String

/-- The collection loop of the OCCTO `scrapeMeetings` (lines 182-203):
each entry's detail page (the paired `Option OcctoPage`) is parsed, and
entries whose date is empty are skipped (`if (!date) continue`). -/
def scrapeMeetingsOccto : List (OcctoEntry × Option OcctoPage) → List MeetingData
  | [] => []
  | (entry, page) :: rest =>
      let d := parseDetailPage page
      if d.date = "" then scrapeMeetingsOccto rest
      else ⟨d.name, d.date, d.time, d.agenda, entry.detailUrl⟩ ::
        scrapeMeetingsOccto rest

/-- The `targetMonths` computation of the OCCTO `parseNewsJson` (lines
46-56): the current month and the following two, with explicit year
rollover; months are 0-based as with JavaScript `getMonth()`. -/
def targetMonths (currentYear currentMonth : Nat) : List (Nat × Nat) :=
  [(currentYear, currentMonth),
   (currentYear + (currentMonth + 1) / 12, (currentMonth + 1) % 12),
   (currentYear + (currentMonth + 2) / 12, (currentMonth + 2) % 12)]

/-- The per-item predicate of the `filteredByDate` filter (lines 58-66):
some target month equals the item's `(getFullYear(), getMonth())`. -/
def inDateWindow (currentYear currentMonth itemYear itemMonth : Nat) : Bool :=
  (targetMonths currentYear currentMonth).any fun target =>
    target.1 == itemYear && target.2 == itemMonth

/-- A category-filtered news item with the year and 0-based month of its
`published_date` (as extracted by `getFullYear()` / `getMonth()`). -/
structure NewsCandidate where
  name : String
  detailUrl : String
  itemYear : Nat
  itemMonth : Nat
deriving DecidableEq

/-- The `filteredByDate` stage of `parseNewsJson`. -/
def filterByDate (currentYear currentMonth : Nat)
    (items : List NewsCandidate) : List NewsCandidate :=
  items.filter fun item =>
    inDateWindow currentYear currentMonth item.itemYear item.itemMonth

/-- Modelled from the spec: the item's calendar month lies in the window
of the current calendar month plus the following two, expressed on the
linear month scale `year * 12 + month`. -/
def inWindowSpec (currentYear currentMonth itemYear itemMonth : Nat) : Prop :=
  currentYear * 12 + currentMonth ≤ itemYear * 12 + itemMonth ∧
  itemYear * 12 + itemMonth ≤ currentYear * 12 + currentMonth + 2

/-- The outcomes of the remote operations `logExecution` performs, passed
in explicitly: client creation, the `spreadsheets.get` listing (yielding
whether the history sheet exists), sheet creation, header write, and the
history append. -/
structure LogEnv where
  clientResult : Except String Unit
  sheetListResult : Except String Bool
  createResult : Except String Unit
  headerResult : Except String Unit
  appendResult : Except String Unit

/-- `ensureHistorySheetExists` (`editor.ts` lines 170-215): the listing,
creation and header write all sit inside one `try`, whose `catch` only
logs — every failure path returns normally. -/
def ensureHistorySheetExists (env : LogEnv) : Unit :=
  match env.sheetListResult with
  | .error _ => ()
  | .ok sheetExists =>
      if sheetExists then ()
      else
        match env.createResult with
        | .error _ => ()
        | .ok _ =>
            match env.headerResult with
            | .error _ => ()
            | .ok _ => ()

/-- The body of the `try` block of `logExecution` (`editor.ts` lines
226-247): client creation may throw, `ensureHistorySheetExists` never
does, the append may throw. -/
def logExecutionBody (env : LogEnv) : Except String Unit :=
  match env.clientResult with
  | .error e => .error e
  | .ok _ =>
      let _ := ensureHistorySheetExists env
      match env.appendResult with
      | .error e => .error e
      | .ok _ => .ok ()

/-- `logExecution` (`editor.ts` lines 220-251): the whole body is wrapped
in `try`/`catch`; the `catch` writes to `console.error` and the call
returns normally either way. -/
def logExecution (env : LogEnv) : Except String Unit :=
  match logExecutionBody env with
  | .ok _ => .ok ()
  | .error _ => .ok ()

/-- The METI history sheet name from `src/index.ts`. -/
def METI_HISTORY_SHEET_NAME : String := "経済産業省_実行履歴"

/-- The OCCTO history sheet name from `src/index.ts`. -/
def OCCTO_HISTORY_SHEET_NAME : String := "電力広域的運営推進機関_実行履歴"

/-- The outcomes of the four fallible operations the two-source `main`
performs, in program order: METI scrape, METI upsert, OCCTO scrape, OCCTO
upsert. -/
structure OrchEnv where
  metiScrape : Except String (List MeetingData)
  metiUpsert : Except String (Nat × Nat)
  occtoScrape : Except String (List MeetingData)
  occtoUpsert : Except String (Nat × Nat)

/-- One row appended to a history sheet by `logExecution`:
`(sheet, status, summary-or-error)`. -/
structure HistoryEntry where
  sheet : String
  status : String
  detail : String
deriving DecidableEq

/-- The observable outcome of a `main` run: the history rows written in
order, the process exit code, and whether the OCCTO source was attempted
(its scrape evaluated). -/
structure OrchResult where
  histories : List HistoryEntry
  exitCode : Nat
  occtoAttempted : Bool
deriving DecidableEq

/-- The `処理件数` summary string `更新N件、新規M件`. -/
def processedSummary (updated inserted : Nat) : String :=
  "更新" ++ toString updated ++ "件、新規" ++ toString inserted ++ "件"

/-- The top-level `catch` of `main` logs a FAILURE entry with the error
message to the METI history sheet and then to the OCCTO history sheet. -/
def failureEntries (msg : String) : List HistoryEntry :=
  [⟨METI_HISTORY_SHEET_NAME, "失敗", msg⟩,
   ⟨OCCTO_HISTORY_SHEET_NAME, "失敗", msg⟩]

/-- One source's section of `main` (`src/index.ts`): zero records log a
`成功 0件` entry without upserting; otherwise the upsert runs (and may
throw) and its counts are logged as a success entry. -/
def sourcePhase (historySheet : String) (meetings : List MeetingData)
    (upsertResult : Except String (Nat × Nat)) : Except String HistoryEntry :=
  if meetings.length = 0 then .ok ⟨historySheet, "成功", "0件"⟩
  else
    match upsertResult with
    | .error e => .error e
    | .ok (updated, inserted) =>
        .ok ⟨historySheet, "成功", processedSummary updated inserted⟩

/-- The two-source `main` of `src/index.ts` (lines 67-146): METI fully
first, then OCCTO, all inside a single `try`; the `catch` writes FAILURE
entries to both history sheets and exits with code 1.  `occtoAttempted`
records whether control reached the OCCTO scrape. -/
def mainRun (env : OrchEnv) : OrchResult :=
  match env.metiScrape with
  | .error e => ⟨failureEntries e, 1, false⟩
  | .ok metiMeetings =>
      match sourcePhase METI_HISTORY_SHEET_NAME metiMeetings env.metiUpsert with
      | .error e => ⟨failureEntries e, 1, false⟩
      | .ok metiEntry =>
          match env.occtoScrape with
          | .error e => ⟨metiEntry :: failureEntries e, 1, true⟩
          | .ok occtoMeetings =>
              match sourcePhase OCCTO_HISTORY_SHEET_NAME occtoMeetings
                  env.occtoUpsert with
              | .error e => ⟨metiEntry :: failureEntries e, 1, true⟩
              | .ok occtoEntry => ⟨[metiEntry, occtoEntry], 0, true⟩

/-- Some scrape or upsert step of the run throws with message `e`. -/
def scrapeOrUpsertFails (env : OrchEnv) (e : String) : Prop :=
  env.metiScrape = .error e ∨
  (∃ ms, env.metiScrape = .ok ms ∧
    sourcePhase METI_HISTORY_SHEET_NAME ms env.metiUpsert = .error e) ∨
  (∃ ms entry, env.metiScrape = .ok ms ∧
    sourcePhase METI_HISTORY_SHEET_NAME ms env.metiUpsert = .ok entry ∧
    (env.occtoScrape = .error e ∨
      ∃ os, env.occtoScrape = .ok os ∧
        sourcePhase OCCTO_HISTORY_SHEET_NAME os env.occtoUpsert = .error e))

/-- The failure happens while processing the first source (METI). -/
def metiPhaseFails (env : OrchEnv) (e : String) : Prop :=
  env.metiScrape = .error e ∨
  (∃ ms, env.metiScrape = .ok ms ∧
    sourcePhase METI_HISTORY_SHEET_NAME ms env.metiUpsert = .error e)

/-- The 5th cell of a freshly built row is the record's `detailUrl`. -/
theorem urlCell_rowOf (m : MeetingData) : urlCell (rowOf m) = m.detailUrl := rfl

/-- C5: the OCCTO detail-page parser turns
`"2026年2月17日（火曜日）18時00分～20時00分"` into date `2026-02-17`
(zero-padded) with time `18時00分～20時00分`; a colon-convention text
keeps the colon form `15:00～17:00`; and text matching neither time
convention is retained verbatim as the time field. -/
theorem parse_detail_datetime :
    parseDateTimeText "2026年2月17日（火曜日）18時00分～20時00分" =
        ("2026-02-17", "18時00分～20時00分") ∧
    parseDateTimeText "2026/3/1 15:00～17:00" = ("", "15:00～17:00") ∧
    ∀ s, s ≠ "" → timeMatch1 s = none → timeMatch2 s = none →
      (parseDateTimeText s).2 = s := by
  refine ⟨by decide, by decide, ?_⟩
  intro s hs h1 h2
  simp [parseDateTimeText, hs, h1, h2]

/-- Witness for C5's raw-text fallback at a concrete unresolvable text. -/
theorem parse_detail_datetime_witness :
    ("日程未定" ≠ "" ∧ timeMatch1 "日程未定" = none ∧
      timeMatch2 "日程未定" = none) ∧
    (parseDateTimeText "日程未定").2 = "日程未定" :=
  ⟨⟨by decide, by decide, by decide⟩,
   parse_detail_datetime.2.2 "日程未定" (by decide) (by decide) (by decide)⟩

/-- C1: with existing data region `[A, B]` (sheet rows 2 and 3, `B` keyed
by a non-empty `detailUrl`), upserting `[B', C]` — `B'` sharing `B`'s key
and `C`'s key absent from the table — leaves row 2 unchanged, overwrites
all five cells of row 3 with `B'`, appends `C` as new row 4, and returns
`{updated: 1, inserted: 1}`. -/
theorem upsert_updates_hit_appends_miss (A B B' C : MeetingData)
    (hKey : B'.detailUrl = B.detailUrl)
    (hBne : B.detailUrl ≠ "")
    (hCA : A.detailUrl ≠ C.detailUrl)
    (hCB : B.detailUrl ≠ C.detailUrl) :
    upsertMeetings [B', C] (.ok (some [rowOf A, rowOf B])) =
      ⟨[rowOf A, rowOf B', rowOf C], 1, 1⟩ := by
  by_cases ha : A.detailUrl = ""
  · simp [upsertMeetings, getExistingData, urlToRowIndex, buildUrlMapFrom,
      upsertLoop, mapGet, mapSet, urlCell_rowOf, ha, hBne, hKey, hCB,
      List.set]
  · by_cases hab : A.detailUrl = B.detailUrl
    · simp [upsertMeetings, getExistingData, urlToRowIndex, buildUrlMapFrom,
        upsertLoop, mapGet, mapSet, urlCell_rowOf, ha, hab, hBne, hKey,
        hCB, List.set]
    · simp [upsertMeetings, getExistingData, urlToRowIndex, buildUrlMapFrom,
        upsertLoop, mapGet, mapSet, urlCell_rowOf, ha, hab, hBne, hKey,
        hCA, hCB, List.set]

/-- Witness for C1 at concrete records. -/
theorem upsert_updates_hit_appends_miss_witness :
    upsertMeetings
        [⟨"b2", "2026-02-01", "", "", "https://x/b"⟩,
         ⟨"c", "2026-03-01", "", "", "https://x/c"⟩]
        (.ok (some [rowOf ⟨"a", "2026-01-01", "", "", "https://x/a"⟩,
                    rowOf ⟨"b", "2026-01-02", "", "", "https://x/b"⟩])) =
      ⟨[rowOf ⟨"a", "2026-01-01", "", "", "https://x/a"⟩,
        rowOf ⟨"b2", "2026-02-01", "", "", "https://x/b"⟩,
        rowOf ⟨"c", "2026-03-01", "", "", "https://x/c"⟩], 1, 1⟩ :=
  upsert_updates_hit_appends_miss
    ⟨"a", "2026-01-01", "", "", "https://x/a"⟩
    ⟨"b", "2026-01-02", "", "", "https://x/b"⟩
    ⟨"b2", "2026-02-01", "", "", "https://x/b"⟩
    ⟨"c", "2026-03-01", "", "", "https://x/c"⟩
    (by decide) (by decide) (by decide) (by decide)

/-- C6: the OCCTO date-window filter retains exactly the candidates whose
published month lies in the current calendar month or the following two,
with correct year rollover; in particular, run in December 2025 it
retains January 2026 and excludes April 2026. -/
theorem month_window_filter (cy cm iy im : Nat) (hcm : cm < 12) (him : im < 12) :
    (inDateWindow cy cm iy im = true ↔ inWindowSpec cy cm iy im) ∧
    (∀ (items : List NewsCandidate) (x : NewsCandidate),
        x ∈ filterByDate cy cm items ↔
          x ∈ items ∧ inDateWindow cy cm x.itemYear x.itemMonth = true) ∧
    inDateWindow 2025 11 2026 0 = true ∧ inDateWindow 2025 11 2026 3 = false := by
  refine ⟨?_, ?_, by decide, by decide⟩
  · simp only [inDateWindow, targetMonths, inWindowSpec, List.any_cons,
      List.any_nil, Bool.or_eq_true, Bool.and_eq_true, beq_iff_eq,
      Bool.false_eq_true, or_false]
    omega
  · intro items x
    simp [filterByDate, List.mem_filter]

/-- Witness for C6 at the December 2025 / January 2026 instance. -/
theorem month_window_filter_witness :
    (11 < 12 ∧ 0 < 12) ∧
    (inDateWindow 2025 11 2026 0 = true ↔ inWindowSpec 2025 11 2026 0) :=
  ⟨⟨by decide, by decide⟩, (month_window_filter 2025 11 2026 0 (by decide) (by decide)).1⟩

/-- A successfully formatted date string is never empty (it contains the
two dash separators). -/
theorem formatted_date_ne_empty (y mo d : String) :
    y ++ "-" ++ padStart2 mo ++ "-" ++ padStart2 d ≠ "" := by
  intro h0
  have h1 := congrArg String.length h0
  simp only [String.length_append] at h1
  have h2 : String.length "-" = 1 := by decide
  have h3 : String.length "" = 0 := by decide
  omega

/-- The METI `parseDate` never turns a non-empty date text into the empty
string: it either formats the captures or returns the input unchanged. -/
theorem parseDate_ne_empty (s : String) (hs : s ≠ "") : parseDate s ≠ "" := by
  unfold parseDate
  rcases hm : dateMatch s with _ | ⟨y, mo, d⟩
  · exact hs
  · show (if y = "" ∨ mo = "" ∨ d = "" then s
        else y ++ "-" ++ padStart2 mo ++ "-" ++ padStart2 d) ≠ ""
    by_cases hg : y = "" ∨ mo = "" ∨ d = ""
    · rw [if_pos hg]; exact hs
    · rw [if_neg hg]; exact formatted_date_ne_empty y mo d

/-- A METI list-page row that yields an entry has a non-empty date text,
and the entry's date is `parseDate` of that text. -/
theorem parseListRow_date (name dateText : String) (href : Option String)
    (e : MetiListEntry) (h : parseListRow name dateText href = some e) :
    e.date = parseDate dateText ∧ dateText ≠ "" := by
  unfold parseListRow at h
  cases href with
  | none => simp at h
  | some s =>
    simp only at h
    by_cases hg : name ≠ "" ∧ s ≠ "" ∧ dateText ≠ ""
    · rw [if_pos hg] at h
      cases h
      exact ⟨rfl, hg.2.2⟩
    · rw [if_neg hg] at h
      simp at h

/-- C3 counterexample: the METI adapter does not drop a candidate whose
date text cannot be resolved — `parseDate` keeps the raw text, and the
record reaches the output with that unresolvable (non-empty, unmatched)
date. -/
theorem scrape_unresolvable_date_cex :
    scrapeMeetingsMeti [("審議会", "日程未定", some "/a")] (fun _ => ⟨"", ""⟩) =
      [⟨"審議会", "日程未定", "", "", "https://wwws.meti.go.jp/a"⟩] ∧
    dateMatch "日程未定" = none ∧ "日程未定" ≠ "" :=
  ⟨by decide, by decide, by decide⟩

/-- C3 amended: every record either adapter emits has a non-empty `date`;
the OCCTO adapter drops every candidate whose detail-page date text does
not resolve (an unresolved date parse yields `""`, and empty-dated
candidates are skipped); the METI adapter instead retains the raw date
text verbatim, never emitting an empty date since rows with empty date
cells are filtered out on the list page. -/
theorem scrape_date_invariants (entries : List (OcctoEntry × Option OcctoPage))
    (rows : List (String × String × Option String))
    (detailOf : String → MetiDetail) :
    (∀ m ∈ scrapeMeetingsOccto entries, m.date ≠ "") ∧
    (∀ s, dateMatch s = none → (parseDateTimeText s).1 = "") ∧
    (∀ (entry : OcctoEntry) (page : Option OcctoPage)
        (rest : List (OcctoEntry × Option OcctoPage)),
        (parseDetailPage page).date = "" →
        scrapeMeetingsOccto ((entry, page) :: rest) = scrapeMeetingsOccto rest) ∧
    (∀ m ∈ scrapeMeetingsMeti rows detailOf, m.date ≠ "") := by
  refine ⟨?_, ?_, ?_, ?_⟩
  · intro m hm
    induction entries with
    | nil => simp [scrapeMeetingsOccto] at hm
    | cons e rest ih =>
      obtain ⟨entry, page⟩ := e
      unfold scrapeMeetingsOccto at hm
      by_cases hd : (parseDetailPage page).date = ""
      · rw [if_pos hd] at hm
        exact ih hm
      · rw [if_neg hd] at hm
        rcases List.mem_cons.mp hm with h | h
        · rw [h]; exact hd
        · exact ih h
  · intro s h
    by_cases hs : s = ""
    · simp [parseDateTimeText, hs]
    · simp [parseDateTimeText, hs, h]
  · intro entry page rest h
    have hstep : scrapeMeetingsOccto ((entry, page) :: rest) =
        if (parseDetailPage page).date = "" then scrapeMeetingsOccto rest
        else ⟨(parseDetailPage page).name, (parseDetailPage page).date,
          (parseDetailPage page).time, (parseDetailPage page).agenda,
          entry.detailUrl⟩ :: scrapeMeetingsOccto rest := rfl
    rw [hstep, if_pos h]
  · intro m hm
    unfold scrapeMeetingsMeti at hm
    rcases List.mem_map.mp hm with ⟨e, he, rfl⟩
    unfold parseListPage at he
    rcases List.mem_filterMap.mp he with ⟨r, _, hr⟩
    obtain ⟨hdate, hne⟩ := parseListRow_date r.1 r.2.1 r.2.2 e hr
    simpa [hdate] using parseDate_ne_empty r.2.1 hne

/-- C8: `logExecution` never throws past its own boundary — for every
combination of internal outcomes (client failure, listing / creation /
header failure inside `ensureHistorySheetExists`, append failure) the
call returns normally. -/
theorem logExecution_never_throws (env : LogEnv) :
    logExecution env = .ok () := by
  cases h : logExecutionBody env <;> simp [logExecution, h]

/-- C4: whenever a scrape or upsert step throws, the single top-level
catch writes a FAILURE entry carrying the error message to both
configured sources' history tables, the process exits non-zero, and a
failure in the first (METI) phase means the OCCTO source is never
attempted. -/
theorem orchestrator_failure_propagation (env : OrchEnv) (e : String)
    (h : scrapeOrUpsertFails env e) :
    (⟨METI_HISTORY_SHEET_NAME, "失敗", e⟩ : HistoryEntry) ∈
        (mainRun env).histories ∧
    (⟨OCCTO_HISTORY_SHEET_NAME, "失敗", e⟩ : HistoryEntry) ∈
        (mainRun env).histories ∧
    (mainRun env).exitCode = 1 ∧
    (metiPhaseFails env e → (mainRun env).occtoAttempted = false) := by
  rcases h with h1 | ⟨ms, hms, hp⟩ | ⟨ms, entry, hms, hp, h2⟩
  · simp [mainRun, h1, failureEntries]
  · simp [mainRun, hms, hp, failureEntries]
  · have himp : ¬ metiPhaseFails env e := by
      rintro (hf | ⟨ms', hms', hp'⟩)
      · rw [hms] at hf; exact Except.noConfusion hf
      · rw [hms] at hms'
        cases hms'
        rw [hp] at hp'
        exact Except.noConfusion hp'
    rcases h2 with h2 | ⟨os, hos, hop⟩
    · simp [mainRun, hms, hp, h2, failureEntries, himp]
    · simp [mainRun, hms, hp, hos, hop, failureEntries, himp]

/-- Witness for C4: a listing-fetch failure in the first source. -/
theorem orchestrator_failure_propagation_witness :
    scrapeOrUpsertFails ⟨.error "listing fetch failed", .ok (0, 0),
        .ok [], .ok (0, 0)⟩ "listing fetch failed" ∧
    ((⟨METI_HISTORY_SHEET_NAME, "失敗", "listing fetch failed"⟩ : HistoryEntry) ∈
        (mainRun ⟨.error "listing fetch failed", .ok (0, 0),
          .ok [], .ok (0, 0)⟩).histories ∧
      (⟨OCCTO_HISTORY_SHEET_NAME, "失敗", "listing fetch failed"⟩ : HistoryEntry) ∈
        (mainRun ⟨.error "listing fetch failed", .ok (0, 0),
          .ok [], .ok (0, 0)⟩).histories ∧
      (mainRun ⟨.error "listing fetch failed", .ok (0, 0),
          .ok [], .ok (0, 0)⟩).exitCode = 1 ∧
      (metiPhaseFails ⟨.error "listing fetch failed", .ok (0, 0),
          .ok [], .ok (0, 0)⟩ "listing fetch failed" →
        (mainRun ⟨.error "listing fetch failed", .ok (0, 0),
          .ok [], .ok (0, 0)⟩).occtoAttempted = false)) :=
  ⟨Or.inl rfl,
   orchestrator_failure_propagation
     ⟨.error "listing fetch failed", .ok (0, 0), .ok [], .ok (0, 0)⟩
     "listing fetch failed" (Or.inl rfl)⟩

/-- Looking a key up after `Map.set`: the new binding wins for that key,
other keys are untouched. -/
theorem mapGet_mapSet (m : List (String × Nat)) (k q : String) (v : Nat) :
    mapGet (mapSet m k v) q = if k = q then some v else mapGet m q := by
  induction m with
  | nil => simp [mapSet, mapGet]
  | cons p rest ih =>
    obtain ⟨k0, v0⟩ := p
    by_cases h0 : k0 = k
    · subst h0
      by_cases h1 : k0 = q <;> simp [mapSet, mapGet, h1]
    · by_cases h1 : k0 = q
      · subst h1
        simp [mapSet, mapGet, h0, Ne.symm h0]
      · simp [mapSet, mapGet, h0, h1, ih]

/-- A key already present stays present through the rest of the
`forEach` map-building loop. -/
theorem buildUrlMapFrom_mono (rows : List Row) (idx : Nat)
    (acc : List (String × Nat)) (u : String) (h : (mapGet acc u).isSome) :
    (mapGet (buildUrlMapFrom idx rows acc) u).isSome := by
  induction rows generalizing idx acc with
  | nil => simpa [buildUrlMapFrom] using h
  | cons row rest ih =>
    simp only [buildUrlMapFrom]
    apply ih
    by_cases hu : urlCell row ≠ ""
    · rw [if_pos hu, mapGet_mapSet]
      split_ifs with he
      · simp
      · exact h
    · rwa [if_neg hu]

/-- A non-empty URL carried by some processed row ends up bound in the
map. -/
theorem buildUrlMapFrom_mem (rows : List Row) (idx : Nat)
    (acc : List (String × Nat)) (u : String) (hu : u ≠ "")
    (hmem : ∃ r ∈ rows, urlCell r = u) :
    (mapGet (buildUrlMapFrom idx rows acc) u).isSome := by
  induction rows generalizing idx acc with
  | nil => simp at hmem
  | cons row rest ih =>
    simp only [buildUrlMapFrom]
    rcases hmem with ⟨r, hr, hru⟩
    rcases List.mem_cons.mp hr with rfl | hr'
    · rw [if_pos (by rw [hru]; exact hu)]
      apply buildUrlMapFrom_mono
      rw [hru, mapGet_mapSet]
      simp
    · exact ih _ _ ⟨r, hr', hru⟩

/-- A URL carried by none of the processed rows leaves the map
untouched. -/
theorem buildUrlMapFrom_absent (rows : List Row) (idx : Nat)
    (acc : List (String × Nat)) (u : String)
    (h : ∀ k, k < rows.length → urlCell (rows.getD k []) ≠ u) :
    mapGet (buildUrlMapFrom idx rows acc) u = mapGet acc u := by
  induction rows generalizing idx acc with
  | nil => rfl
  | cons row rest ih =>
    simp only [buildUrlMapFrom]
    rw [ih _ _ (fun k hk => by
      have := h (k + 1) (by simpa using Nat.succ_lt_succ hk)
      simpa [List.getD_cons_succ] using this)]
    have hhead : urlCell row ≠ u := by
      have := h 0 (by simp)
      simpa [List.getD_cons_zero] using this
    by_cases hu : urlCell row ≠ ""
    · rw [if_pos hu, mapGet_mapSet, if_neg hhead]
    · rw [if_neg hu]

/-- When duplicate keys exist among the rows, the last row carrying the
key wins: the map binds it to that row's sheet index. -/
theorem buildUrlMapFrom_last (rows : List Row) (idx : Nat)
    (acc : List (String × Nat)) (u : String) (j : Nat)
    (hu : u ≠ "") (hj : j < rows.length)
    (hcell : urlCell (rows.getD j []) = u)
    (hlast : ∀ k, j < k → k < rows.length → urlCell (rows.getD k []) ≠ u) :
    mapGet (buildUrlMapFrom idx rows acc) u = some (idx + j + 2) := by
  induction rows generalizing idx acc j with
  | nil => simp at hj
  | cons row rest ih =>
    cases j with
    | zero =>
      have hrow : urlCell row = u := by simpa [List.getD_cons_zero] using hcell
      have hrest : ∀ k, k < rest.length → urlCell (rest.getD k []) ≠ u := by
        intro k hk
        have := hlast (k + 1) (Nat.succ_pos k) (by simpa using Nat.succ_lt_succ hk)
        simpa [List.getD_cons_succ] using this
      simp only [buildUrlMapFrom]
      rw [if_pos (by rw [hrow]; exact hu)]
      rw [buildUrlMapFrom_absent rest (idx + 1) _ u hrest]
      rw [hrow, mapGet_mapSet, if_pos rfl]
    | succ j' =>
      have hcell' : urlCell (rest.getD j' []) = u := by
        simpa [List.getD_cons_succ] using hcell
      have hlast' : ∀ k, j' < k → k < rest.length → urlCell (rest.getD k []) ≠ u := by
        intro k hk1 hk2
        have := hlast (k + 1) (Nat.succ_lt_succ hk1) (by simpa using Nat.succ_lt_succ hk2)
        simpa [List.getD_cons_succ] using this
      simp only [buildUrlMapFrom]
      rw [ih (idx + 1)
        (if urlCell row ≠ "" then mapSet acc (urlCell row) (idx + 2) else acc)
        j' (by simpa using hj) hcell' hlast']
      simp only [Option.some.injEq]
      omega

/-- Bounds and injectivity of the map built by the `forEach` loop: every
bound index is a genuine data-region sheet row (`2 ≤ i < idx + n + 2`),
and two distinct keys are never bound to the same row. -/
theorem buildUrlMapFrom_ok (rows : List Row) (idx : Nat)
    (acc : List (String × Nat))
    (hbound : ∀ u i, mapGet acc u = some i → 2 ≤ i ∧ i < idx + 2)
    (hinj : ∀ u₁ u₂ i, mapGet acc u₁ = some i → mapGet acc u₂ = some i → u₁ = u₂) :
    (∀ u i, mapGet (buildUrlMapFrom idx rows acc) u = some i →
        2 ≤ i ∧ i < idx + rows.length + 2) ∧
    (∀ u₁ u₂ i, mapGet (buildUrlMapFrom idx rows acc) u₁ = some i →
        mapGet (buildUrlMapFrom idx rows acc) u₂ = some i → u₁ = u₂) := by
  induction rows generalizing idx acc with
  | nil =>
    refine ⟨fun u i h => ?_, hinj⟩
    have := hbound u i h
    simpa [buildUrlMapFrom] using ⟨this.1, by omega⟩
  | cons row rest ih =>
    simp only [buildUrlMapFrom]
    by_cases hu : urlCell row ≠ ""
    · rw [if_pos hu]
      have hb' : ∀ u i, mapGet (mapSet acc (urlCell row) (idx + 2)) u = some i →
          2 ≤ i ∧ i < (idx + 1) + 2 := by
        intro u i h
        rw [mapGet_mapSet] at h
        split_ifs at h with he
        · cases h; omega
        · have := hbound u i h; omega
      have hi' : ∀ u₁ u₂ i,
          mapGet (mapSet acc (urlCell row) (idx + 2)) u₁ = some i →
          mapGet (mapSet acc (urlCell row) (idx + 2)) u₂ = some i → u₁ = u₂ := by
        intro u₁ u₂ i h₁ h₂
        rw [mapGet_mapSet] at h₁ h₂
        split_ifs at h₁ h₂ with he₁ he₂ he₂
        · rw [← he₁, ← he₂]
        · cases h₁
          have := hbound u₂ (idx + 2) h₂
          omega
        · cases h₂
          have := hbound u₁ (idx + 2) h₁
          omega
        · exact hinj u₁ u₂ i h₁ h₂
      have := ih (idx + 1) _ hb' hi'
      refine ⟨fun u i h => ?_, this.2⟩
      have h2 := this.1 u i h
      refine ⟨h2.1, ?_⟩
      have : i < idx + 1 + rest.length + 2 := h2.2
      simp only [List.length_cons]
      omega
    · rw [if_neg hu]
      have := ih (idx + 1) acc
        (fun u i h => by have := hbound u i h; omega) hinj
      refine ⟨fun u i h => ?_, this.2⟩
      have h2 := this.1 u i h
      refine ⟨h2.1, ?_⟩
      simp only [List.length_cons]
      omega

/-- Bounds and injectivity of the full `urlToRowIndex` map. -/
theorem urlToRowIndex_ok (rows : List Row) :
    (∀ u i, mapGet (urlToRowIndex rows) u = some i →
        2 ≤ i ∧ i < rows.length + 2) ∧
    (∀ u₁ u₂ i, mapGet (urlToRowIndex rows) u₁ = some i →
        mapGet (urlToRowIndex rows) u₂ = some i → u₁ = u₂) := by
  have := buildUrlMapFrom_ok rows 0 []
    (fun u i h => by simp [mapGet] at h)
    (fun u₁ u₂ i h₁ h₂ => by simp [mapGet] at h₁)
  simpa [urlToRowIndex] using this

/-- The write loop never shrinks the table: updates keep its length,
appends grow it. -/
theorem upsertLoop_length (urlMap : List (String × Nat))
    (ms : List MeetingData) (t : List Row) (a b : Nat) :
    t.length ≤ (upsertLoop urlMap ms t a b).table.length := by
  induction ms generalizing t a b with
  | nil => simp [upsertLoop]
  | cons m rest ih =>
    simp only [upsertLoop]
    cases h : mapGet urlMap m.detailUrl with
    | some idx =>
      have := ih (t.set (idx - 2) (rowOf m)) (a + 1) b
      simpa [List.length_set] using this
    | none =>
      exact le_trans (by simp) (ih (t ++ [rowOf m]) a (b + 1))

/-- The returned counts of the write loop: `updated` counts the key-map
hits of the input, `inserted` the misses — with respect to the map fixed
before the loop. -/
theorem upsertLoop_counts (urlMap : List (String × Nat))
    (ms : List MeetingData) (t : List Row) (a b : Nat) :
    (upsertLoop urlMap ms t a b).updated =
        a + ms.countP (fun m => (mapGet urlMap m.detailUrl).isSome) ∧
    (upsertLoop urlMap ms t a b).inserted =
        b + ms.countP (fun m => (mapGet urlMap m.detailUrl).isNone) := by
  induction ms generalizing t a b with
  | nil => simp [upsertLoop]
  | cons m rest ih =>
    simp only [upsertLoop]
    cases h : mapGet urlMap m.detailUrl with
    | some idx =>
      have := ih (t.set (idx - 2) (rowOf m)) (a + 1) b
      refine ⟨?_, ?_⟩
      · rw [this.1, List.countP_cons]
        simp [h]
        omega
      · rw [this.2, List.countP_cons]
        simp [h]
    | none =>
      have := ih (t ++ [rowOf m]) a (b + 1)
      refine ⟨?_, ?_⟩
      · rw [this.1, List.countP_cons]
        simp [h]
      · rw [this.2, List.countP_cons]
        simp [h]
        omega

/-- A table position that no remaining record's map hit targets survives
the rest of the write loop unchanged (appends land beyond it, updates
land elsewhere). -/
theorem upsertLoop_preserve (urlMap : List (String × Nat))
    (ms : List MeetingData) (t : List Row) (a b : Nat) (j : Nat)
    (hbound : ∀ u i, mapGet urlMap u = some i → 2 ≤ i)
    (hnot : ∀ m ∈ ms, ∀ i, mapGet urlMap m.detailUrl = some i → i ≠ j + 2)
    (hj : j < t.length) :
    (upsertLoop urlMap ms t a b).table[j]? = t[j]? := by
  induction ms generalizing t a b with
  | nil => simp [upsertLoop]
  | cons m rest ih =>
    simp only [upsertLoop]
    cases h : mapGet urlMap m.detailUrl with
    | some idx =>
      have hge := hbound _ _ h
      have hne : idx ≠ j + 2 := hnot m (List.mem_cons_self m rest) idx h
      have hne' : idx - 2 ≠ j := by omega
      rw [ih (t.set (idx - 2) (rowOf m)) (a + 1) b
        (fun m' hm' => hnot m' (List.mem_cons_of_mem m hm'))
        (by simpa [List.length_set] using hj)]
      exact List.getElem?_set_ne hne'
    | none =>
      rw [ih (t ++ [rowOf m]) a (b + 1)
        (fun m' hm' => hnot m' (List.mem_cons_of_mem m hm'))
        (by simp only [List.length_append, List.length_cons, List.length_nil]; omega)]
      exact List.getElem?_append_left hj

/-- Splitting the write loop at a list split of the input. -/
theorem upsertLoop_append (urlMap : List (String × Nat))
    (xs ys : List MeetingData) (t : List Row) (a b : Nat) :
    upsertLoop urlMap (xs ++ ys) t a b =
      upsertLoop urlMap ys (upsertLoop urlMap xs t a b).table
        (upsertLoop urlMap xs t a b).updated
        (upsertLoop urlMap xs t a b).inserted := by
  induction xs generalizing t a b with
  | nil => simp [upsertLoop]
  | cons m rest ih =>
    simp only [List.cons_append, upsertLoop]
    cases h : mapGet urlMap m.detailUrl with
    | some idx => exact ih (t.set (idx - 2) (rowOf m)) (a + 1) b
    | none => exact ih (t ++ [rowOf m]) a (b + 1)

/-- After the write loop runs on pairwise-distinct keys, every processed
record's key is carried by some row of the resulting table. -/
theorem upsertLoop_keys_present (urlMap : List (String × Nat))
    (ms : List MeetingData) (t : List Row) (a b : Nat) (N : Nat)
    (hbound : ∀ u i, mapGet urlMap u = some i → 2 ≤ i ∧ i < N + 2)
    (hinj : ∀ u₁ u₂ i, mapGet urlMap u₁ = some i →
        mapGet urlMap u₂ = some i → u₁ = u₂)
    (hN : N ≤ t.length)
    (hdist : ms.Pairwise fun x y => x.detailUrl ≠ y.detailUrl) :
    ∀ m ∈ ms, ∃ r ∈ (upsertLoop urlMap ms t a b).table,
      urlCell r = m.detailUrl := by
  induction ms generalizing t a b with
  | nil => simp
  | cons m₀ rest ih =>
    intro m hm
    rcases List.pairwise_cons.mp hdist with ⟨hm₀, hrest⟩
    simp only [upsertLoop]
    cases h : mapGet urlMap m₀.detailUrl with
    | some idx =>
      have hb := hbound _ _ h
      have hj : idx - 2 < t.length := by omega
      rcases List.mem_cons.mp hm with rfl | hm'
      · have hpres : (upsertLoop urlMap rest (t.set (idx - 2) (rowOf m)) (a + 1)
            b).table[idx - 2]? = (t.set (idx - 2) (rowOf m))[idx - 2]? := by
          apply upsertLoop_preserve
          · intro u i hi
            exact (hbound u i hi).1
          · intro m' hm'' i hi hcontra
            have hb' := hbound _ _ hi
            have : i = idx := by omega
            subst this
            exact hm₀ m' hm'' (hinj _ _ _ h hi)
          · simpa [List.length_set] using hj
        have hval : (t.set (idx - 2) (rowOf m))[idx - 2]? = some (rowOf m) := by
          rw [List.getElem?_set_self]
          simp [hj]
        refine ⟨rowOf m, ?_, urlCell_rowOf m⟩
        exact List.getElem?_mem (by rw [hpres, hval])
      · exact ih (t.set (idx - 2) (rowOf m₀)) (a + 1) b
          (by simpa [List.length_set] using hN) hrest m hm'
    | none =>
      rcases List.mem_cons.mp hm with rfl | hm'
      · have hpres : (upsertLoop urlMap rest (t ++ [rowOf m]) a
            (b + 1)).table[t.length]? = (t ++ [rowOf m])[t.length]? := by
          apply upsertLoop_preserve
          · intro u i hi
            exact (hbound u i hi).1
          · intro m' hm'' i hi hcontra
            have hb' := hbound _ _ hi
            omega
          · simp only [List.length_append, List.length_cons, List.length_nil]
            omega
        have hval : (t ++ [rowOf m])[t.length]? = some (rowOf m) :=
          List.getElem?_concat_length t (rowOf m)
        refine ⟨rowOf m, ?_, urlCell_rowOf m⟩
        exact List.getElem?_mem (by rw [hpres, hval])
      · exact ih (t ++ [rowOf m₀]) a (b + 1)
          (by simp only [List.length_append, List.length_cons, List.length_nil]; omega)
          hrest m hm'

/-- One write-loop step on a key missing from the map appends the row. -/
theorem upsertLoop_cons_none (M : List (String × Nat)) (m : MeetingData)
    (ms : List MeetingData) (t : List Row) (a b : Nat)
    (h : mapGet M m.detailUrl = none) :
    upsertLoop M (m :: ms) t a b = upsertLoop M ms (t ++ [rowOf m]) a (b + 1) := by
  simp only [upsertLoop, h]

/-- Two records sharing a key the fixed map misses are both appended, and
both rows survive to the end of the loop at distinct positions. -/
theorem upsertLoop_two_misses (M : List (String × Nat)) (N : Nat)
    (ms₁ ms₂ ms₃ : List MeetingData) (m₁ m₂ : MeetingData)
    (t : List Row) (a b : Nat)
    (hbound : ∀ u i, mapGet M u = some i → 2 ≤ i ∧ i < N + 2)
    (hN : N ≤ t.length)
    (h₁ : mapGet M m₁.detailUrl = none) (h₂ : mapGet M m₂.detailUrl = none) :
    ∃ j₁ j₂ : Nat, j₁ < j₂ ∧
      (upsertLoop M (ms₁ ++ m₁ :: ms₂ ++ m₂ :: ms₃) t a b).table[j₁]? =
        some (rowOf m₁) ∧
      (upsertLoop M (ms₁ ++ m₁ :: ms₂ ++ m₂ :: ms₃) t a b).table[j₂]? =
        some (rowOf m₂) := by
  have hlen₁ : t.length ≤ (upsertLoop M ms₁ t a b).table.length :=
    upsertLoop_length M ms₁ t a b
  have heq : upsertLoop M (ms₁ ++ m₁ :: ms₂ ++ m₂ :: ms₃) t a b =
      upsertLoop M ms₃
        ((upsertLoop M ms₂ ((upsertLoop M ms₁ t a b).table ++ [rowOf m₁])
            (upsertLoop M ms₁ t a b).updated
            ((upsertLoop M ms₁ t a b).inserted + 1)).table ++ [rowOf m₂])
        (upsertLoop M ms₂ ((upsertLoop M ms₁ t a b).table ++ [rowOf m₁])
            (upsertLoop M ms₁ t a b).updated
            ((upsertLoop M ms₁ t a b).inserted + 1)).updated
        ((upsertLoop M ms₂ ((upsertLoop M ms₁ t a b).table ++ [rowOf m₁])
            (upsertLoop M ms₁ t a b).updated
            ((upsertLoop M ms₁ t a b).inserted + 1)).inserted + 1) := by
    rw [upsertLoop_append M (ms₁ ++ m₁ :: ms₂) (m₂ :: ms₃) t a b]
    rw [upsertLoop_append M ms₁ (m₁ :: ms₂) t a b]
    rw [upsertLoop_cons_none M m₁ ms₂
      (upsertLoop M ms₁ t a b).table (upsertLoop M ms₁ t a b).updated
      (upsertLoop M ms₁ t a b).inserted h₁]
    rw [upsertLoop_cons_none M m₂ ms₃ _ _ _ h₂]
  rw [heq]
  set T₁ := (upsertLoop M ms₁ t a b).table with hT₁
  set U₁ := (upsertLoop M ms₁ t a b).updated with hU₁
  set I₁ := (upsertLoop M ms₁ t a b).inserted with hI₁
  set T₂ := (upsertLoop M ms₂ (T₁ ++ [rowOf m₁]) U₁ (I₁ + 1)).table with hT₂
  have hlen₂ : (T₁ ++ [rowOf m₁]).length ≤ T₂.length := by
    rw [hT₂]
    exact upsertLoop_length M ms₂ (T₁ ++ [rowOf m₁]) U₁ (I₁ + 1)
  have hlT₂ : T₁.length + 1 ≤ T₂.length := by
    simpa using hlen₂
  refine ⟨T₁.length, T₂.length, by omega, ?_, ?_⟩
  · rw [upsertLoop_preserve M ms₃ (T₂ ++ [rowOf m₂])
      (upsertLoop M ms₂ (T₁ ++ [rowOf m₁]) U₁ (I₁ + 1)).updated
      ((upsertLoop M ms₂ (T₁ ++ [rowOf m₁]) U₁ (I₁ + 1)).inserted + 1)
      T₁.length
      (fun u i hi => (hbound u i hi).1)
      (fun m' hm' i hi => by
        have := (hbound _ _ hi).2
        omega)
      (by
        simp only [List.length_append, List.length_cons, List.length_nil]
        omega)]
    rw [List.getElem?_append_left (by omega)]
    rw [hT₂]
    rw [upsertLoop_preserve M ms₂ (T₁ ++ [rowOf m₁]) U₁ (I₁ + 1) T₁.length
      (fun u i hi => (hbound u i hi).1)
      (fun m' hm' i hi => by
        have := (hbound _ _ hi).2
        omega)
      (by simp)]
    exact List.getElem?_concat_length T₁ (rowOf m₁)
  · rw [upsertLoop_preserve M ms₃ (T₂ ++ [rowOf m₂])
      (upsertLoop M ms₂ (T₁ ++ [rowOf m₁]) U₁ (I₁ + 1)).updated
      ((upsertLoop M ms₂ (T₁ ++ [rowOf m₁]) U₁ (I₁ + 1)).inserted + 1)
      T₂.length
      (fun u i hi => (hbound u i hi).1)
      (fun m' hm' i hi => by
        have := (hbound _ _ hi).2
        omega)
      (by
        simp only [List.length_append, List.length_cons, List.length_nil]
        omega)]
    exact List.getElem?_concat_length T₂ (rowOf m₂)

/-- With an empty key map every record is appended in input order and
counted as an insert. -/
theorem upsertLoop_empty_map (ms : List MeetingData) (t : List Row) (a b : Nat) :
    upsertLoop [] ms t a b = ⟨t ++ ms.map rowOf, a, b + ms.length⟩ := by
  induction ms generalizing t b with
  | nil => simp [upsertLoop]
  | cons m rest ih =>
    rw [upsertLoop_cons_none [] m rest t a b rfl, ih (t ++ [rowOf m]) (b + 1)]
    simp
    omega

/-- C2 (amended): for every input whose records carry pairwise-distinct,
non-empty `detailUrl` keys, running `upsertMeetings` twice in a row —
the second call reading the table state produced by the first — makes the
second call report `updated` equal to the input length and
`inserted = 0`. -/
theorem upsert_idempotent_second_run (ms : List MeetingData) (t₀ : List Row)
    (hdist : ms.Pairwise fun x y => x.detailUrl ≠ y.detailUrl)
    (hne : ∀ m ∈ ms, m.detailUrl ≠ "") :
    (upsertMeetings ms
        (.ok (some (upsertMeetings ms (.ok (some t₀))).table))).updated =
      ms.length ∧
    (upsertMeetings ms
        (.ok (some (upsertMeetings ms (.ok (some t₀))).table))).inserted = 0 := by
  have hok := urlToRowIndex_ok t₀
  have hkeys : ∀ m ∈ ms, ∃ r ∈ (upsertMeetings ms (.ok (some t₀))).table,
      urlCell r = m.detailUrl := by
    intro m hm
    exact upsertLoop_keys_present (urlToRowIndex t₀) ms t₀ 0 0 t₀.length
      hok.1 hok.2 le_rfl hdist m hm
  have hsome : ∀ m ∈ ms,
      (mapGet (urlToRowIndex (upsertMeetings ms (.ok (some t₀))).table)
        m.detailUrl).isSome := by
    intro m hm
    exact buildUrlMapFrom_mem _ 0 [] _ (hne m hm) (hkeys m hm)
  have hcounts := upsertLoop_counts
    (urlToRowIndex (upsertMeetings ms (.ok (some t₀))).table) ms
    (upsertMeetings ms (.ok (some t₀))).table 0 0
  constructor
  · show (upsertLoop (urlToRowIndex (upsertMeetings ms (.ok (some t₀))).table)
      ms (upsertMeetings ms (.ok (some t₀))).table 0 0).updated = ms.length
    rw [hcounts.1, List.countP_eq_length.mpr (fun m hm => hsome m hm)]
    omega
  · show (upsertLoop (urlToRowIndex (upsertMeetings ms (.ok (some t₀))).table)
      ms (upsertMeetings ms (.ok (some t₀))).table 0 0).inserted = 0
    rw [hcounts.2, List.countP_eq_zero.mpr ?_]
    intro m hm
    have := hsome m hm
    rcases hopt : mapGet (urlToRowIndex (upsertMeetings ms
      (.ok (some t₀))).table) m.detailUrl with _ | v
    · rw [hopt] at this
      simp at this
    · simp [hopt]

/-- Witness for C2 at two concrete distinct-keyed records over the empty
table. -/
theorem upsert_idempotent_second_run_witness :
    (([⟨"a", "2026-01-01", "", "", "https://x/a"⟩,
       ⟨"b", "2026-01-02", "", "", "https://x/b"⟩] : List MeetingData).Pairwise
        fun x y => x.detailUrl ≠ y.detailUrl) ∧
    (upsertMeetings
        [⟨"a", "2026-01-01", "", "", "https://x/a"⟩,
         ⟨"b", "2026-01-02", "", "", "https://x/b"⟩]
        (.ok (some (upsertMeetings
          [⟨"a", "2026-01-01", "", "", "https://x/a"⟩,
           ⟨"b", "2026-01-02", "", "", "https://x/b"⟩]
          (.ok (some []))).table))).updated = 2 ∧
    (upsertMeetings
        [⟨"a", "2026-01-01", "", "", "https://x/a"⟩,
         ⟨"b", "2026-01-02", "", "", "https://x/b"⟩]
        (.ok (some (upsertMeetings
          [⟨"a", "2026-01-01", "", "", "https://x/a"⟩,
           ⟨"b", "2026-01-02", "", "", "https://x/b"⟩]
          (.ok (some []))).table))).inserted = 0 := by
  have hdist : ([⟨"a", "2026-01-01", "", "", "https://x/a"⟩,
      ⟨"b", "2026-01-02", "", "", "https://x/b"⟩] : List MeetingData).Pairwise
        fun x y => x.detailUrl ≠ y.detailUrl := by
    simp [List.pairwise_cons]
  have hne : ∀ m ∈ ([⟨"a", "2026-01-01", "", "", "https://x/a"⟩,
      ⟨"b", "2026-01-02", "", "", "https://x/b"⟩] : List MeetingData),
        m.detailUrl ≠ "" := by
    decide
  have := upsert_idempotent_second_run
    [⟨"a", "2026-01-01", "", "", "https://x/a"⟩,
     ⟨"b", "2026-01-02", "", "", "https://x/b"⟩] [] hdist hne
  exact ⟨hdist, this.1, this.2⟩

/-- C2 counterexample: the claim as stated fails for a duplicate-free
input whose single record carries an empty `detailUrl` — the empty key is
falsy and never enters the URL map, so the second run inserts it again
(`updated = 0`, `inserted = 1`) instead of the claimed
`updated = 1, inserted = 0`. -/
theorem upsert_idempotent_cex :
    (([⟨"n", "2026-01-01", "", "", ""⟩] : List MeetingData).Pairwise
        fun x y => x.detailUrl ≠ y.detailUrl) ∧
    (upsertMeetings [⟨"n", "2026-01-01", "", "", ""⟩]
        (.ok (some (upsertMeetings [⟨"n", "2026-01-01", "", "", ""⟩]
          (.ok (some []))).table))).updated = 0 ∧
    (upsertMeetings [⟨"n", "2026-01-01", "", "", ""⟩]
        (.ok (some (upsertMeetings [⟨"n", "2026-01-01", "", "", ""⟩]
          (.ok (some []))).table))).inserted = 1 :=
  ⟨by simp, by decide, by decide⟩

/-- C7: a `detailUrl` occurring in several existing rows is mapped to the
sheet row of its last occurrence (later row wins); the duplicate rows are
tolerated in place — the table never shrinks, and upserting a record
carrying the duplicated key overwrites only the last occurrence, leaving
every earlier row untouched. -/
theorem duplicate_url_last_wins (rows : List Row) (u : String) (j : Nat)
    (hu : u ≠ "") (hj : j < rows.length)
    (hcell : urlCell (rows.getD j []) = u)
    (hlast : ∀ k, j < k → k < rows.length → urlCell (rows.getD k []) ≠ u) :
    mapGet (urlToRowIndex rows) u = some (j + 2) ∧
    (∀ ms : List MeetingData,
        rows.length ≤ (upsertMeetings ms (.ok (some rows))).table.length) ∧
    (∀ j', j' < j → ∀ m : MeetingData, m.detailUrl = u →
        (upsertMeetings [m] (.ok (some rows))).table[j']? = rows[j']?) := by
  have hmap : mapGet (urlToRowIndex rows) u = some (j + 2) := by
    have := buildUrlMapFrom_last rows 0 [] u j hu hj hcell hlast
    simpa [urlToRowIndex] using this
  refine ⟨hmap, fun ms => upsertLoop_length (urlToRowIndex rows) ms rows 0 0, ?_⟩
  intro j' hj' m hmu
  show (upsertLoop (urlToRowIndex rows) [m] rows 0 0).table[j']? = rows[j']?
  simp only [upsertLoop, hmu, hmap]
  exact List.getElem?_set_ne (by omega)

/-- Witness for C7: two rows sharing a URL; the map binds the URL to sheet
row 3, the second (last) occurrence. -/
theorem duplicate_url_last_wins_witness :
    ("https://x/u" ≠ "" ∧ (1 : Nat) < 2) ∧
    mapGet (urlToRowIndex
      [["n1", "d1", "t1", "g1", "https://x/u"],
       ["n2", "d2", "t2", "g2", "https://x/u"]]) "https://x/u" = some 3 :=
  ⟨⟨by decide, by decide⟩,
   (duplicate_url_last_wins
     [["n1", "d1", "t1", "g1", "https://x/u"],
      ["n2", "d2", "t2", "g2", "https://x/u"]] "https://x/u" 1
     (by decide) (by decide) (by decide)
     (fun k hk1 hk2 => absurd hk1 (by
       simp only [List.length_cons, List.length_nil] at hk2
       omega))).1⟩

/-- C9: a failed read of the data region is caught and becomes the empty
list, so the write loop runs with an empty key map, appends every input
record in order as a new insert, and returns `updated = 0` and
`inserted = length input` — no error reaches the caller. -/
theorem read_failure_inserts_all (e : String) (ms : List MeetingData) :
    getExistingData (.error e) = [] ∧
    urlToRowIndex (getExistingData (.error e)) = [] ∧
    upsertMeetings ms (.error e) = ⟨ms.map rowOf, 0, ms.length⟩ := by
  refine ⟨rfl, rfl, ?_⟩
  show upsertLoop (urlToRowIndex []) ms [] 0 0 = _
  rw [show urlToRowIndex [] = [] from rfl, upsertLoop_empty_map]
  simp

/-- C10: the key map is fixed before the write loop and never extended by
the rows the loop appends: with an input containing two records sharing a
`detailUrl` absent from the existing table, `inserted` counts exactly the
misses against the pre-loop map (so both records count), at least two
inserts happen, and both records' rows sit in the final table at distinct
positions — two rows with the same `detailUrl`. -/
theorem fixed_map_appends_duplicates (ms₁ ms₂ ms₃ : List MeetingData)
    (m₁ m₂ : MeetingData) (rows : List Row)
    (hsame : m₁.detailUrl = m₂.detailUrl)
    (habsent : ∀ k, k < rows.length → urlCell (rows.getD k []) ≠ m₁.detailUrl) :
    (upsertMeetings (ms₁ ++ m₁ :: ms₂ ++ m₂ :: ms₃) (.ok (some rows))).inserted =
        (ms₁ ++ m₁ :: ms₂ ++ m₂ :: ms₃).countP
          (fun m => (mapGet (urlToRowIndex rows) m.detailUrl).isNone) ∧
    2 ≤ (upsertMeetings (ms₁ ++ m₁ :: ms₂ ++ m₂ :: ms₃)
        (.ok (some rows))).inserted ∧
    ∃ j₁ j₂ : Nat, j₁ < j₂ ∧
      (upsertMeetings (ms₁ ++ m₁ :: ms₂ ++ m₂ :: ms₃)
          (.ok (some rows))).table[j₁]? = some (rowOf m₁) ∧
      (upsertMeetings (ms₁ ++ m₁ :: ms₂ ++ m₂ :: ms₃)
          (.ok (some rows))).table[j₂]? = some (rowOf m₂) := by
  have hnone₁ : mapGet (urlToRowIndex rows) m₁.detailUrl = none := by
    have := buildUrlMapFrom_absent rows 0 [] m₁.detailUrl habsent
    simpa [urlToRowIndex, mapGet] using this
  have hnone₂ : mapGet (urlToRowIndex rows) m₂.detailUrl = none := by
    rw [← hsame]
    exact hnone₁
  have hcount : (upsertMeetings (ms₁ ++ m₁ :: ms₂ ++ m₂ :: ms₃)
      (.ok (some rows))).inserted =
        (ms₁ ++ m₁ :: ms₂ ++ m₂ :: ms₃).countP
          (fun m => (mapGet (urlToRowIndex rows) m.detailUrl).isNone) := by
    have := (upsertLoop_counts (urlToRowIndex rows)
      (ms₁ ++ m₁ :: ms₂ ++ m₂ :: ms₃) rows 0 0).2
    simpa using this
  refine ⟨hcount, ?_, ?_⟩
  · rw [hcount]
    rw [List.countP_append, List.countP_append, List.countP_cons, List.countP_cons]
    simp [hnone₁, hnone₂]
    omega
  · exact upsertLoop_two_misses (urlToRowIndex rows) rows.length ms₁ ms₂ ms₃
      m₁ m₂ rows 0 0 (urlToRowIndex_ok rows).1 le_rfl hnone₁ hnone₂

/-- Witness for C10: two records sharing a fresh URL over the empty
table. -/
theorem fixed_map_appends_duplicates_witness :
    ((⟨"x", "2026-01-01", "", "", "https://x/dup"⟩ : MeetingData).detailUrl =
      (⟨"y", "2026-01-02", "", "", "https://x/dup"⟩ : MeetingData).detailUrl) ∧
    2 ≤ (upsertMeetings
        [⟨"x", "2026-01-01", "", "", "https://x/dup"⟩,
         ⟨"y", "2026-01-02", "", "", "https://x/dup"⟩]
        (.ok (some []))).inserted :=
  ⟨rfl,
   (fixed_map_appends_duplicates [] [] []
     ⟨"x", "2026-01-01", "", "", "https://x/dup"⟩
     ⟨"y", "2026-01-02", "", "", "https://x/dup"⟩ []
     rfl (fun k hk => absurd hk (by simp))).2.1⟩

/-- Witness for C3 (amended) at a concrete OCCTO candidate whose detail
page failed to parse: the candidate is dropped. -/
theorem scrape_date_invariants_witness :
    (parseDetailPage none).date = "" ∧
    scrapeMeetingsOccto [(⟨"entry", "https://x/e"⟩, none)] =
      scrapeMeetingsOccto [] :=
  ⟨rfl, (scrape_date_invariants [] [] (fun _ => ⟨"", ""⟩)).2.2.1
    ⟨"entry", "https://x/e"⟩ none [] rfl⟩
